import Mathlib

/-!
Verification of the review-collector library (Android storefront).
The definitions below are a shallow embedding of `lib/index.js`:
`responseToHtml`, `htmlToReviews` and the closure state machine of
`Collector.collect` (`processNextApp`, `queuePage`, `parse`, `requeue`,
`continueProcessingApp`, `stopProcessingApp`).  The HTTP transport and the
cheerio DOM engine are external collaborators: a response carries the JSON
value its body parses to, and a page carries the list of review fragments
the DOM query finds in its HTML payload.
-/

namespace ReviewsCollector

/-- JSON values as returned by `JSON.parse`.  Only the shape matters to the
decoder: arrays, strings, JSON `null`, and everything else. -/
inductive Json where
  | arr (elems : List Json)
  | str (s : String)
  | null
  | other
deriving Repr

/-- The JavaScript return value of `responseToHtml`:
`value j` is the `return arr[2]` path (the raw JSON value at index 2 of the
inner array), `empty` is the JS `null` sentinel ("no more reviews"), and
`invalid` is JS `undefined`. -/
inductive DecodeOutcome where
  | value (j : Json)
  | empty
  | invalid
deriving Repr

/-- The exact content-type string the decoder requires. -/
def jsonContentType : String := "application/json; charset=utf-8"

/-- A raw HTTP response.  `parsedBody` models
`JSON.parse(removeLeadingChars(decodeUnicode(decodeUTF8(body))))`:
`decodeUTF8` falls back to its input on failure and `decodeUnicode` /
`removeLeadingChars` are total string transformations, so the only throwing
step of the `try` block is `JSON.parse`; `none` means it threw. -/
structure HttpResponse where
  contentType : String
  parsedBody : Option Json
deriving Repr

/-- Embedding of `responseToHtml(response)`.  The content-type header must
equal `jsonContentType` exactly; the body must parse as a non-empty JSON
array; if its first element is a 4-element array the value at index 2 is
returned, otherwise the `null` ("no more reviews") sentinel; an empty outer
array, a non-array body or a parse exception yield `undefined`. -/
def responseToHtml (response : HttpResponse) : DecodeOutcome :=
  if response.contentType = jsonContentType then
    match response.parsedBody with
    | none => .invalid
    | some body =>
      match body with
      | .arr [] => .invalid
      | .arr (first :: _) =>
        match first with
        | .arr [_, _, c, _] => .value c
        | _ => .empty
      | _ => .invalid
  else .invalid

/-- A JS `Date` object built by `new Date(str)`.  The `Date` constructor is
an external runtime capability that never throws: an unparsable string
yields the Invalid Date sentinel.  We model the object by the string it was
constructed from. -/
structure JsDate where
  raw : String
deriving Repr, DecidableEq

/-- One review fragment as seen through the DOM query collaborator: the
node matched by the review-card class, projected to the five places
`htmlToReviews` reads.  `none` models a missing attribute (`attr` returns
JS `undefined`). -/
structure ReviewFragment where
  reviewIdAttr : Option String
  dateText : String
  ratingStyleAttr : Option String
  titleText : String
  bodyText : String
deriving Repr, DecidableEq

/-- One extracted review record.  `id` is `none` when the review-id
attribute was missing (JS `undefined` stored as-is). -/
structure Review where
  id : Option String
  date : JsDate
  rating : ℚ
  title : String
  text : String
deriving Repr, DecidableEq

/-- JS coercion applied by `RegExp.exec` to its argument: a missing
attribute is `undefined`, which coerces to the string "undefined". -/
def jsStringOfAttr : Option String → String
  | some s => s
  | none => "undefined"

/-- Attempt the regex `width: ([0-9]\x7b2,3\x7d)%` at the head of the
character list: the literal "width: ", then greedily three digits else two,
then the percent sign.  Returns the captured digit group. -/
def matchWidthAt : List Char → Option (List Char)
  | 'w' :: 'i' :: 'd' :: 't' :: 'h' :: ':' :: ' ' :: d1 :: d2 :: rest =>
    if d1.isDigit && d2.isDigit then
      match rest with
      | c :: cs =>
        if c.isDigit then
          match cs with
          | '%' :: _ => some [d1, d2, c]
          | _ => none
        else if c = '%' then some [d1, d2]
        else none
      | [] => none
    else none
  | _ => none

/-- `widthRegex.exec`: scan left to right for the first position where the
width pattern matches; `none` is JS `null` (no match anywhere). -/
def execWidthRegex : List Char → Option (List Char)
  | [] => none
  | c :: cs =>
    match matchWidthAt (c :: cs) with
    | some grp => some grp
    | none => execWidthRegex cs

/-- `Number` applied to the captured digit group (all characters are
digits, so this is plain decimal reading). -/
def digitsToNat (ds : List Char) : Nat :=
  ds.foldl (fun acc c => acc * 10 + (c.toNat - '0'.toNat)) 0

/-- The one exception the extraction loop body can raise: reading property
1 of the `null` returned by a failed `exec`. -/
inductive JsError where
  | typeError
deriving Repr, DecidableEq

/-- The body of the `_.forEach` loop in `htmlToReviews`, for one fragment.
Field order follows the source: id and date are stored as-is (missing id
and unparsable date are sentinels, not errors); the rating line throws when
`exec` finds no width match; title and text are trimmed. -/
def extractReview (frag : ReviewFragment) : Except JsError Review :=
  match execWidthRegex (jsStringOfAttr frag.ratingStyleAttr).data with
  | none => .error .typeError
  | some grp =>
    .ok { id := frag.reviewIdAttr
          date := { raw := frag.dateText }
          rating := (digitsToNat grp : ℚ) / 20
          title := frag.titleText.trim
          text := frag.bodyText.trim }

/-- Events published through the collector's emitter.  Every emit also
tags the payload with the constant platform field, which we omit.
`pageComplete` carries the reviews array, the `firstReviewTime` /
`lastReviewTime` fields (set only when the page had reviews), and
`contIsStop`: `none` when no callbacks were attached (automatic mode),
`some b` when `continue` / `stop` were attached with `b` recording whether
`continue` was bound to `stopProcessingApp` (zero-review page).
`doneCollecting` carries `appsRemaining` (`none` when the emitted object
had no such field) and whether an `error` field was populated. -/
inductive Event where
  | review (appId : String) (pageNum : Nat) (r : Review)
  | pageComplete (appId : String) (pageNum : Nat) (reviews : List Review)
      (firstReviewTime lastReviewTime : Option JsDate) (contIsStop : Option Bool)
  | doneCollecting (appId : String) (pageNum : Nat) (appsRemaining : Option Nat) (hasError : Bool)
  | doneWithApps
deriving Repr, DecidableEq

/-- Result of `htmlToReviews`: the returned object (`reviews` array or
`error` field) together with the `review` events emitted before returning
(events fired before a mid-loop exception stay fired). -/
structure ExtractionResult where
  result : Except JsError (List Review)
  emitted : List Event
deriving Repr

/-- Embedding of `htmlToReviews(html, appId, pageNum, emit)` over the
fragment list the DOM query finds in the HTML.  Fragments are processed in
document order; each successful extraction pushes the record and emits one
`review` event; an exception aborts the loop and the catch returns the
error object. -/
def htmlToReviews (appId : String) (pageNum : Nat) :
    List ReviewFragment → ExtractionResult
  | [] => { result := .ok [], emitted := [] }
  | frag :: rest =>
    match extractReview frag with
    | .error e => { result := .error e, emitted := [] }
    | .ok r =>
      let tail := htmlToReviews appId pageNum rest
      match tail.result with
      | .error e =>
        { result := .error e, emitted := Event.review appId pageNum r :: tail.emitted }
      | .ok rs =>
        { result := .ok (r :: rs), emitted := Event.review appId pageNum r :: tail.emitted }

/-- Configuration options after `_.assign(defaults, options)`.  `userAgent`
and `delay` only parameterize the transport and are omitted. -/
structure Options where
  maxPages : Nat
  maxRetries : Nat
  checkBeforeContinue : Bool
deriving Repr, DecidableEq

/-- The constructor's defaults (`checkBeforeContinue` absent is falsy). -/
def Options.defaults : Options :=
  { maxPages := 5, maxRetries := 3, checkBeforeContinue := false }

/-- `const firstPage = 0`. -/
def firstPage : Nat := 0

/-- What the run is currently waiting on.  `fetching`: a request for the
current app and page is queued with the crawler and its callback will fire.
`deciding b`: a `page complete` event carrying callbacks was emitted and
nothing is scheduled until one is invoked; `b` records whether `continue`
was bound to `stopProcessingApp` (zero-review page).  `stalled`: control
returned without scheduling any request or emitting callbacks, so nothing
further can ever happen.  `finished`: `done with apps` was emitted. -/
inductive Phase where
  | fetching
  | deciding (contIsStop : Bool)
  | stalled
  | finished
deriving Repr, DecidableEq

/-- The mutable closure state of `collect()`: the remaining `appIds` queue,
the `self.apps` retries map, `currentApp`, `currentPage`,
`nextStepDecided`, plus the phase recording what is scheduled. -/
structure RunState where
  queue : List String
  retriesMap : List (String × Nat)
  currentApp : String
  currentPage : Nat
  nextStepDecided : Bool
  phase : Phase
deriving Repr, DecidableEq

/-- `self.apps[k].retries` (the constructor puts every queued app in the
map with retries 0). -/
def getRetries (m : List (String × Nat)) (k : String) : Nat :=
  ((m.find? (fun p => p.1 = k)).map (fun p => p.2)).getD 0

/-- Write `self.apps[k].retries := v`. -/
def setRetries (m : List (String × Nat)) (k : String) (v : Nat) : List (String × Nat) :=
  m.map (fun p => if p.1 = k then (p.1, v) else p)

/-- `processNextApp()`: shift the next app id off the queue and fetch its
first page, or emit `done with apps` when the queue is exhausted. -/
def processNextApp (st : RunState) : RunState × List Event :=
  match st.queue with
  | [] => ({ st with phase := .finished }, [Event.doneWithApps])
  | a :: rest =>
    ({ st with queue := rest, currentApp := a, currentPage := firstPage,
               phase := .fetching }, [])

/-- `requeue()`: bump the current app's retry counter; below the limit the
same page is queued again, otherwise `done collecting` fires with the
retry-limit error and the run moves to the next app. -/
def requeue (opts : Options) (st : RunState) : RunState × List Event :=
  let r := getRetries st.retriesMap st.currentApp + 1
  let st1 := { st with retriesMap := setRetries st.retriesMap st.currentApp r }
  if r < opts.maxRetries then
    ({ st1 with phase := .fetching }, [])
  else
    let ev := Event.doneCollecting st.currentApp st.currentPage (some st1.queue.length) true
    let next := processNextApp st1
    (next.1, ev :: next.2)

/-- `continueProcessingApp()`: guarded by `nextStepDecided`; increments
`currentPage` and queues it. -/
def continueProcessingApp (st : RunState) : RunState × List Event :=
  if st.nextStepDecided then (st, [])
  else
    ({ st with nextStepDecided := true, currentPage := st.currentPage + 1,
               phase := .fetching }, [])

/-- `stopProcessingApp()`: guarded by `nextStepDecided`; emits
`done collecting` (no error, with the count of apps remaining) and moves to
the next app. -/
def stopProcessingApp (st : RunState) : RunState × List Event :=
  if st.nextStepDecided then (st, [])
  else
    let ev := Event.doneCollecting st.currentApp st.currentPage (some st.queue.length) false
    let next := processNextApp { st with nextStepDecided := true }
    (next.1, ev :: next.2)

/-- Embedding of `parse(result)`.  `resp` is the raw response and `frags`
the review fragments the DOM query finds in the HTML payload (the cheerio
collaborator).  The branches mirror the source: `undefined` → requeue;
`null` (either the decoder's sentinel or a JSON `null` at index 2) → emit
`done collecting` and schedule nothing further; a string → extraction; any
other value matches no branch and schedules nothing further. -/
def parse (opts : Options) (st : RunState) (resp : HttpResponse)
    (frags : List ReviewFragment) : RunState × List Event :=
  match responseToHtml resp with
  | .invalid => requeue opts st
  | .empty =>
    ({ st with phase := .stalled },
     [Event.doneCollecting st.currentApp st.currentPage none false])
  | .value .null =>
    ({ st with phase := .stalled },
     [Event.doneCollecting st.currentApp st.currentPage none false])
  | .value (.str _) =>
    let converted := htmlToReviews st.currentApp st.currentPage frags
    match converted.result with
    | .error _ =>
      let next := requeue opts st
      (next.1, converted.emitted ++ next.2)
    | .ok reviews =>
      let n := reviews.length
      let st1 := { st with retriesMap := setRetries st.retriesMap st.currentApp 0,
                           nextStepDecided := false }
      let contIsStop : Option Bool :=
        if opts.checkBeforeContinue then some (n = 0) else none
      let pageEv := Event.pageComplete st.currentApp st.currentPage reviews
        (reviews.getLast?.map (fun r => r.date)) (reviews.head?.map (fun r => r.date))
        contIsStop
      if opts.checkBeforeContinue then
        ({ st1 with phase := .deciding (n = 0) }, converted.emitted ++ [pageEv])
      else
        let next :=
          if n > 0 ∧ (opts.maxPages = 0 ∨ st.currentPage + 1 < opts.maxPages + firstPage) then
            continueProcessingApp st1
          else
            stopProcessingApp st1
        (next.1, converted.emitted ++ pageEv :: next.2)
  | .value _ => ({ st with phase := .stalled }, [])

/-- What the crawler hands its `processRequest` callback: either a
transport error or a response (paired with the fragments its HTML
contains, for the DOM collaborator). -/
inductive FetchOutcome where
  | transportError
  | success (resp : HttpResponse) (frags : List ReviewFragment)

/-- The crawler callback `processRequest(error, result)`. -/
def processRequest (opts : Options) (st : RunState) (o : FetchOutcome) :
    RunState × List Event :=
  match o with
  | .transportError => requeue opts st
  | .success resp frags => parse opts st resp frags

/-- An external invocation of one of the two callbacks delivered with a
`page complete` event. -/
inductive UserCall where
  | callContinue
  | callStop
deriving Repr, DecidableEq

/-- Invoking a delivered callback: `stop` is always `stopProcessingApp`;
`continue` is `continueProcessingApp` when the page had reviews and
`stopProcessingApp` otherwise (`contIsStop` was captured at emit time). -/
def invokeCallback (contIsStop : Bool) (c : UserCall) (st : RunState) :
    RunState × List Event :=
  match c with
  | .callStop => stopProcessingApp st
  | .callContinue =>
    if contIsStop then stopProcessingApp st else continueProcessingApp st

/-- `_.keys(self.apps)` for the apps map the constructor builds by
assigning `this.apps[appId]` per element: each id keyed once, in
first-insertion order. -/
def objectKeys (apps : List String) : List String :=
  apps.foldl (fun acc a => if acc.contains a then acc else acc ++ [a]) []

/-- The state set up by the constructor, before `collect()` shifts the
first app (`currentApp` is still JS `undefined`). -/
def initState (apps : List String) : RunState :=
  let keys := objectKeys apps
  { queue := keys, retriesMap := keys.map (fun a => (a, 0)), currentApp := "",
    currentPage := firstPage, nextStepDecided := false, phase := .stalled }

/-- `collect()` up to its first `processNextApp()` call. -/
def collectStart (apps : List String) : RunState × List Event :=
  processNextApp (initState apps)

/-- One scripted external stimulus: a crawler callback firing, or a consumer
invoking a delivered `page complete` callback. -/
inductive RunInput where
  | fetch (o : FetchOutcome)
  | user (c : UserCall)

/-- Feed one stimulus to the run.  A crawler callback can only fire while a
request is outstanding; a `page complete` callback invocation while
`deciding` uses the `contIsStop` captured at emit time.  Anything else has
no handler and changes nothing. -/
def step (opts : Options) (st : RunState) (i : RunInput) : RunState × List Event :=
  match st.phase, i with
  | .fetching, .fetch o => processRequest opts st o
  | .deciding contIsStop, .user c => invokeCallback contIsStop c st
  | _, _ => (st, [])

/-- Feed a whole script of stimuli, collecting emitted events in order. -/
def run (opts : Options) (st : RunState) : List RunInput → RunState × List Event
  | [] => (st, [])
  | i :: rest =>
    let s1 := step opts st i
    let s2 := run opts s1.1 rest
    (s2.1, s1.2 ++ s2.2)

/-- A complete run: constructor, `collect()`, then the scripted stimuli. -/
def collectRun (opts : Options) (apps : List String) (inputs : List RunInput) :
    RunState × List Event :=
  let s0 := collectStart apps
  let s1 := run opts s0.1 inputs
  (s1.1, s0.2 ++ s1.2)

/-! ### Helper lemmas -/

theorem getRetries_setRetries_self (m : List (String × Nat)) (k : String) (v : Nat)
    (h : k ∈ m.map Prod.fst) : getRetries (setRetries m k v) k = v := by
  induction m with
  | nil => simp at h
  | cons p tl ih =>
    by_cases hp : p.1 = k
    · simp [setRetries, getRetries, hp, List.find?]
    · simp only [List.map_cons, List.mem_cons] at h
      rcases h with h | h
      · exact absurd h.symm hp
      · simpa [setRetries, getRetries, hp, List.find?] using ih h

theorem processNextApp_retriesMap (st : RunState) :
    (processNextApp st).1.retriesMap = st.retriesMap := by
  unfold processNextApp
  cases st.queue <;> rfl

theorem continueProcessingApp_retriesMap (st : RunState) :
    (continueProcessingApp st).1.retriesMap = st.retriesMap := by
  unfold continueProcessingApp
  split <;> rfl

theorem stopProcessingApp_retriesMap (st : RunState) :
    (stopProcessingApp st).1.retriesMap = st.retriesMap := by
  unfold stopProcessingApp
  split
  · rfl
  · exact processNextApp_retriesMap _

theorem processNextApp_nextStepDecided (st : RunState) :
    (processNextApp st).1.nextStepDecided = st.nextStepDecided := by
  unfold processNextApp
  cases st.queue <;> rfl

theorem step_stalled (opts : Options) (st : RunState) (i : RunInput)
    (h : st.phase = .stalled) : step opts st i = (st, []) := by
  unfold step
  rw [h]

theorem run_stalled (opts : Options) (st : RunState) (inputs : List RunInput)
    (h : st.phase = .stalled) : run opts st inputs = (st, []) := by
  induction inputs with
  | nil => rfl
  | cons i rest ih =>
    unfold run
    rw [step_stalled opts st i h]
    simpa using ih

/-! ### Claim theorems -/

/-- C1 counterexample: a JSON-content-type response whose body parses as
the empty array `[]` is decoded to the Invalid outcome (JS `undefined`),
not to the Empty outcome (JS `null`) that the claim asserts. -/
theorem decode_empty_array_invalid_cex :
    responseToHtml { contentType := jsonContentType,
                     parsedBody := some (Json.arr []) } = .invalid ∧
    responseToHtml { contentType := jsonContentType,
                     parsedBody := some (Json.arr []) } ≠ .empty :=
  ⟨rfl, fun h => nomatch h⟩

/-- C1 (amended): with the JSON content-type, a body parsing as a
non-empty outer array whose first element is an array of length other than
4 decodes to the Empty outcome; a body parsing as the empty array `[]`
decodes to the Invalid outcome. -/
theorem decode_shape_outcomes :
    (∀ (xs rest : List Json), xs.length ≠ 4 →
      responseToHtml { contentType := jsonContentType,
                       parsedBody := some (Json.arr (Json.arr xs :: rest)) } = .empty) ∧
    responseToHtml { contentType := jsonContentType,
                     parsedBody := some (Json.arr []) } = .invalid := by
  refine ⟨?_, rfl⟩
  intro xs rest h
  rcases xs with _ | ⟨a, _ | ⟨b, _ | ⟨c, _ | ⟨d, _ | ⟨e, tl⟩⟩⟩⟩⟩
  · rfl
  · rfl
  · rfl
  · rfl
  · exact absurd rfl h
  · rfl

/-- C1 witness: the amended theorem applied to the concrete body
`[[null-like other]]`, whose first element has length 1. -/
theorem decode_shape_outcomes_witness :
    ([Json.other].length ≠ 4) ∧
    responseToHtml { contentType := jsonContentType,
                     parsedBody := some (Json.arr [Json.arr [Json.other]]) } = .empty :=
  ⟨by decide, decode_shape_outcomes.1 [Json.other] [] (by decide)⟩

/-- C10: the decoder accepts a body only when the content-type header is
exactly "application/json; charset=utf-8"; any other header string yields
the Invalid outcome, and the body is never examined (the outcome is the
same for every body). -/
theorem decode_contentType_exact :
    (∀ re : HttpResponse, re.contentType ≠ jsonContentType → responseToHtml re = .invalid) ∧
    (∀ (b1 b2 : Option Json) (ct : String), ct ≠ jsonContentType →
      responseToHtml { contentType := ct, parsedBody := b1 } =
        responseToHtml { contentType := ct, parsedBody := b2 }) := by
  constructor
  · intro re h
    unfold responseToHtml
    rw [if_neg h]
  · intro b1 b2 ct h
    unfold responseToHtml
    rw [if_neg h, if_neg h]

/-- C10 witness: the bare "application/json" header (no charset) is
rejected even over a body that would otherwise decode to an HTML value. -/
theorem decode_contentType_exact_witness :
    ("application/json" ≠ jsonContentType) ∧
    responseToHtml { contentType := "application/json",
                     parsedBody := some (Json.arr [Json.arr
                       [Json.other, Json.other, Json.str "h", Json.other]]) } = .invalid :=
  ⟨by decide, decode_contentType_exact.1 _ (by decide)⟩

/-- The record the loop body builds for a fragment whose width regex
capture is `grp`: id and date stored as-is, rating is the captured
percentage over 20, title and text trimmed. -/
def reviewOfFrag (frag : ReviewFragment) (grp : List Char) : Review :=
  { id := frag.reviewIdAttr
    date := { raw := frag.dateText }
    rating := (digitsToNat grp : ℚ) / 20
    title := frag.titleText.trim
    text := frag.bodyText.trim }

/-- A fragment whose rating style is present but does not match the width
pattern (single-digit percentage). -/
def smallWidthFrag : ReviewFragment :=
  { reviewIdAttr := some "r1", dateText := "January 1, 2016",
    ratingStyleAttr := some "width: 5%", titleText := "t", bodyText := "b" }

/-- A fragment with a missing review-id attribute, an unparsable date
string, and a well-formed rating style. -/
def tolerantFrag : ReviewFragment :=
  { reviewIdAttr := none, dateText := "not a real date",
    ratingStyleAttr := some "width: 40%", titleText := " t ", bodyText := " b " }

/-- A fragment with no style attribute at all on its rating node. -/
def noStyleFrag : ReviewFragment :=
  { reviewIdAttr := some "r2", dateText := "March 3, 2016",
    ratingStyleAttr := none, titleText := "x", bodyText := "y" }

/-- C3 counterexample: a rating style attribute that does not match the
width pattern makes the extraction of the whole page abort with the error
object (the regex match is `null` and reading its capture throws into the
page-level catch), rather than recording a sentinel and proceeding. -/
theorem rating_anomaly_aborts_cex :
    (htmlToReviews "app" 0 [smallWidthFrag]).result = .error .typeError ∧
    (htmlToReviews "app" 0 [smallWidthFrag]).emitted = [] :=
  ⟨rfl, rfl⟩

/-- C3 (amended): a missing review-id attribute and an unparsable date
string never abort the page — they are recorded as-is (JS `undefined` id,
Invalid-Date sentinel) and extraction of all fragments proceeds — but only
as long as every fragment's rating style matches the width pattern; a
non-matching rating style aborts the page with an error result. -/
theorem field_tolerance :
    ∀ (appId : String) (pageNum : Nat) (frags : List ReviewFragment),
      (frags.all fun f => (execWidthRegex (jsStringOfAttr f.ratingStyleAttr).data).isSome) = true →
      ∃ rs, (htmlToReviews appId pageNum frags).result = .ok rs ∧
        rs.map (fun r => r.id) = frags.map (fun f => f.reviewIdAttr) ∧
        rs.map (fun r => r.date) = frags.map (fun f => JsDate.mk f.dateText) := by
  intro appId pageNum frags h
  rw [List.all_eq_true] at h
  induction frags with
  | nil => exact ⟨[], rfl, rfl, rfl⟩
  | cons f rest ih =>
    obtain ⟨grp, hg⟩ := Option.isSome_iff_exists.mp (by simpa using h f (List.mem_cons_self f rest))
    obtain ⟨rs, hok, hid, hdate⟩ := ih (fun g hgmem => h g (List.mem_cons_of_mem _ hgmem))
    have hex : extractReview f = .ok (reviewOfFrag f grp) := by
      unfold extractReview reviewOfFrag
      rw [hg]
    refine ⟨reviewOfFrag f grp :: rs, ?_, ?_, ?_⟩
    · simp [htmlToReviews, hex, hok]
    · simpa [reviewOfFrag] using hid
    · simpa [reviewOfFrag] using hdate

/-- C3 witness: the amended theorem at a single fragment with a missing id
and an unparsable date — the page succeeds and the degraded id is kept. -/
theorem field_tolerance_witness :
    (([tolerantFrag].all fun f =>
        (execWidthRegex (jsStringOfAttr f.ratingStyleAttr).data).isSome) = true) ∧
    (htmlToReviews "app" 0 [tolerantFrag]).result.map (List.map fun r => r.id) = .ok [none] := by
  obtain ⟨rs, hok, hid, hdate⟩ := field_tolerance "app" 0 [tolerantFrag] (by decide)
  refine ⟨by decide, ?_⟩
  rw [hok]
  simpa [Except.map, tolerantFrag] using hid

/-- C8 counterexample: a page containing one review fragment whose rating
node has no style attribute yields the error outcome with no records and
no review events, not the one record and one event the claim requires. -/
theorem extract_count_cex :
    (htmlToReviews "app" 7 [noStyleFrag]).result = .error .typeError ∧
    (htmlToReviews "app" 7 [noStyleFrag]).emitted = [] :=
  ⟨rfl, rfl⟩

/-- C8 (amended): for a page of N review fragments each of whose rating
style matches the width pattern, extraction returns exactly N records in
document order and emits exactly N review events, one per record in the
same order; N = 0 succeeds with the empty sequence. -/
theorem extract_count_order :
    ∀ (appId : String) (pageNum : Nat) (frags : List ReviewFragment),
      (frags.all fun f => (execWidthRegex (jsStringOfAttr f.ratingStyleAttr).data).isSome) = true →
      ∃ rs, (htmlToReviews appId pageNum frags).result = .ok rs ∧
        rs.length = frags.length ∧
        (htmlToReviews appId pageNum frags).emitted = rs.map (Event.review appId pageNum) := by
  intro appId pageNum frags h
  rw [List.all_eq_true] at h
  induction frags with
  | nil => exact ⟨[], rfl, rfl, rfl⟩
  | cons f rest ih =>
    obtain ⟨grp, hg⟩ := Option.isSome_iff_exists.mp (by simpa using h f (List.mem_cons_self f rest))
    obtain ⟨rs, hok, hlen, hemit⟩ := ih (fun g hgmem => h g (List.mem_cons_of_mem _ hgmem))
    have hex : extractReview f = .ok (reviewOfFrag f grp) := by
      unfold extractReview reviewOfFrag
      rw [hg]
    refine ⟨reviewOfFrag f grp :: rs, ?_, ?_, ?_⟩
    · simp [htmlToReviews, hex, hok]
    · simpa using hlen
    · simp [htmlToReviews, hex, hok, hemit]

/-- C8 witness: the amended theorem at a two-fragment page — two records,
two review events. -/
theorem extract_count_order_witness :
    (([tolerantFrag, tolerantFrag].all fun f =>
        (execWidthRegex (jsStringOfAttr f.ratingStyleAttr).data).isSome) = true) ∧
    (htmlToReviews "app" 3 [tolerantFrag, tolerantFrag]).emitted.length = 2 := by
  obtain ⟨rs, hok, hlen, hemit⟩ := extract_count_order "app" 3 [tolerantFrag, tolerantFrag] (by decide)
  exact ⟨by decide, by rw [hemit, List.length_map, hlen]; rfl⟩

/-- C9: whenever the rating node's style attribute matches the width
pattern with captured integer percentage, the extracted rating is exactly
that percentage divided by 20; width 100% gives rating 5 and width 20%
gives rating 1. -/
theorem rating_width_div20 :
    (∀ (frag : ReviewFragment) (grp : List Char),
      execWidthRegex (jsStringOfAttr frag.ratingStyleAttr).data = some grp →
      extractReview frag = .ok (reviewOfFrag frag grp) ∧
      (reviewOfFrag frag grp).rating = (digitsToNat grp : ℚ) / 20) ∧
    (∀ frag : ReviewFragment, frag.ratingStyleAttr = some "width: 100%" →
      ∃ r, extractReview frag = .ok r ∧ r.rating = 5) ∧
    (∀ frag : ReviewFragment, frag.ratingStyleAttr = some "width: 20%" →
      ∃ r, extractReview frag = .ok r ∧ r.rating = 1) := by
  refine ⟨?_, ?_, ?_⟩
  · intro frag grp h
    refine ⟨?_, rfl⟩
    unfold extractReview reviewOfFrag
    rw [h]
  · intro frag h
    have hg : execWidthRegex (jsStringOfAttr frag.ratingStyleAttr).data =
        some ['1', '0', '0'] := by rw [h]; rfl
    refine ⟨_, by unfold extractReview; rw [hg], ?_⟩
    show (digitsToNat ['1', '0', '0'] : ℚ) / 20 = 5
    rw [show digitsToNat ['1', '0', '0'] = 100 from by decide]
    norm_num
  · intro frag h
    have hg : execWidthRegex (jsStringOfAttr frag.ratingStyleAttr).data =
        some ['2', '0'] := by rw [h]; rfl
    refine ⟨_, by unfold extractReview; rw [hg], ?_⟩
    show (digitsToNat ['2', '0'] : ℚ) / 20 = 1
    rw [show digitsToNat ['2', '0'] = 20 from by decide]
    norm_num

/-- C9 witness: a full-width rating bar extracts as a 5-star rating. -/
theorem rating_width_div20_witness :
    (({ smallWidthFrag with ratingStyleAttr := some "width: 100%" }
        : ReviewFragment).ratingStyleAttr = some "width: 100%") ∧
    (extractReview { smallWidthFrag with ratingStyleAttr := some "width: 100%" }).map
      (fun r => r.rating) = .ok 5 := by
  obtain ⟨r, he, hr⟩ := rating_width_div20.2.1
    { smallWidthFrag with ratingStyleAttr := some "width: 100%" } rfl
  exact ⟨rfl, by rw [he]; simpa [Except.map] using hr⟩

/-- A response that decodes to an HTML payload (4-element inner array with
a string at index 2). -/
def htmlResp : HttpResponse :=
  { contentType := jsonContentType,
    parsedBody := some (Json.arr [Json.arr
      [Json.other, Json.other, Json.str "<div></div>", Json.other]]) }

/-- A response that decodes to the "no more reviews" sentinel (non-empty
outer array whose first element is not a 4-element array). -/
def lastPageResp : HttpResponse :=
  { contentType := jsonContentType, parsedBody := some (Json.arr [Json.arr []]) }

/-- C7: within one `page complete` cycle (the guard freshly reset), the
first invocation of either delivered callback locks the decision — it sets
`nextStepDecided` — and any subsequent invocation of either callback is a
no-op: no state change and no event, so no duplicate `done collecting` and
no second page advance. -/
theorem decision_idempotent :
    ∀ (st : RunState) (b1 b2 : Bool) (c1 c2 : UserCall),
      st.nextStepDecided = false →
      (invokeCallback b1 c1 st).1.nextStepDecided = true ∧
      invokeCallback b2 c2 (invokeCallback b1 c1 st).1 = ((invokeCallback b1 c1 st).1, []) := by
  intro st b1 b2 c1 c2 h
  have hset : (invokeCallback b1 c1 st).1.nextStepDecided = true := by
    cases c1 with
    | callStop => simp [invokeCallback, stopProcessingApp, h, processNextApp_nextStepDecided]
    | callContinue =>
      cases b1
      · simp [invokeCallback, continueProcessingApp, h]
      · simp [invokeCallback, stopProcessingApp, h, processNextApp_nextStepDecided]
  have hnoop : ∀ st1 : RunState, st1.nextStepDecided = true →
      invokeCallback b2 c2 st1 = (st1, []) := by
    intro st1 h1
    cases c2 with
    | callStop => simp [invokeCallback, stopProcessingApp, h1]
    | callContinue =>
      cases b2
      · simp [invokeCallback, continueProcessingApp, h1]
      · simp [invokeCallback, stopProcessingApp, h1]
  exact ⟨hset, hnoop _ hset⟩

/-- C7 witness: the theorem at a concrete mid-decision state — `continue`
then `stop` leaves the post-continue state untouched with no events. -/
theorem decision_idempotent_witness :
    (({ queue := ["b"], retriesMap := [("a", 0), ("b", 0)], currentApp := "a",
        currentPage := 0, nextStepDecided := false,
        phase := .deciding false } : RunState).nextStepDecided = false) ∧
    (invokeCallback false .callContinue
      { queue := ["b"], retriesMap := [("a", 0), ("b", 0)], currentApp := "a",
        currentPage := 0, nextStepDecided := false,
        phase := .deciding false }).1.nextStepDecided = true ∧
    invokeCallback false .callStop
      (invokeCallback false .callContinue
        { queue := ["b"], retriesMap := [("a", 0), ("b", 0)], currentApp := "a",
          currentPage := 0, nextStepDecided := false, phase := .deciding false }).1 =
      ((invokeCallback false .callContinue
        { queue := ["b"], retriesMap := [("a", 0), ("b", 0)], currentApp := "a",
          currentPage := 0, nextStepDecided := false, phase := .deciding false }).1, []) := by
  have h := decision_idempotent
    { queue := ["b"], retriesMap := [("a", 0), ("b", 0)], currentApp := "a",
      currentPage := 0, nextStepDecided := false, phase := .deciding false }
    false false .callContinue .callStop rfl
  exact ⟨rfl, h.1, h.2⟩

/-- C6: on a zero-review page under `checkBeforeContinue`, the delivered
`continue` callback is the same function as `stop`: the parse step enters
the deciding phase with `continue` bound to stop, and invoking it emits a
no-error `done collecting` (with the count of apps remaining) and moves to
the next queued app via `processNextApp`, with no page advance. -/
theorem checkBefore_zero_continue_is_stop :
    (∀ st : RunState, invokeCallback true .callContinue st = invokeCallback true .callStop st) ∧
    (∀ (opts : Options) (st : RunState) (resp : HttpResponse)
        (frags : List ReviewFragment) (s : String),
      opts.checkBeforeContinue = true → responseToHtml resp = .value (.str s) →
      (htmlToReviews st.currentApp st.currentPage frags).result = .ok [] →
      (parse opts st resp frags).1.phase = .deciding true ∧
      (parse opts st resp frags).1.nextStepDecided = false ∧
      (parse opts st resp frags).1.currentPage = st.currentPage) ∧
    (∀ st : RunState, st.nextStepDecided = false →
      invokeCallback true .callContinue st =
        ((processNextApp { st with nextStepDecided := true }).1,
         Event.doneCollecting st.currentApp st.currentPage (some st.queue.length) false ::
           (processNextApp { st with nextStepDecided := true }).2)) := by
  refine ⟨fun st => rfl, ?_, ?_⟩
  · intro opts st resp frags s hcb hresp hok
    refine ⟨?_, ?_, ?_⟩ <;> simp [parse, hresp, hok, hcb]
  · intro st h
    simp [invokeCallback, stopProcessingApp, h]

/-- C6 witness: the parse conjunct at a concrete zero-review page with
`checkBeforeContinue` enabled. -/
theorem checkBefore_zero_continue_is_stop_witness :
    (({ Options.defaults with checkBeforeContinue := true } : Options).checkBeforeContinue
        = true) ∧
    responseToHtml htmlResp = .value (.str "<div></div>") ∧
    (htmlToReviews "a" 0 []).result = .ok [] ∧
    (parse { Options.defaults with checkBeforeContinue := true }
      { queue := ["b"], retriesMap := [("a", 0), ("b", 0)], currentApp := "a",
        currentPage := 0, nextStepDecided := false, phase := .fetching }
      htmlResp []).1.phase = .deciding true := by
  have h := checkBefore_zero_continue_is_stop.2.1
    { Options.defaults with checkBeforeContinue := true }
    { queue := ["b"], retriesMap := [("a", 0), ("b", 0)], currentApp := "a",
      currentPage := 0, nextStepDecided := false, phase := .fetching }
    htmlResp [] "<div></div>" rfl rfl rfl
  exact ⟨rfl, rfl, rfl, h.1⟩

/-- C5: in automatic mode (`checkBeforeContinue` unset), a successfully
extracted page advances to the next page number exactly when it yielded at
least one review and (`maxPages = 0` or `currentPage + 1 < maxPages`);
otherwise the app stops (no-error `done collecting`, next queued app via
`processNextApp`).  Concretely with `maxPages = 2`: page 0 with one review
advances to page 1; page 1 completing stops whether it had one review or
none. -/
theorem auto_advance_iff :
    (∀ (opts : Options) (st : RunState) (resp : HttpResponse)
        (frags : List ReviewFragment) (s : String) (rs : List Review),
      opts.checkBeforeContinue = false → responseToHtml resp = .value (.str s) →
      (htmlToReviews st.currentApp st.currentPage frags).result = .ok rs →
      ((rs.length > 0 ∧ (opts.maxPages = 0 ∨ st.currentPage + 1 < opts.maxPages + firstPage) →
        (parse opts st resp frags).1.currentApp = st.currentApp ∧
        (parse opts st resp frags).1.currentPage = st.currentPage + 1 ∧
        (parse opts st resp frags).1.phase = .fetching) ∧
      (¬(rs.length > 0 ∧ (opts.maxPages = 0 ∨ st.currentPage + 1 < opts.maxPages + firstPage)) →
        (parse opts st resp frags).1 =
          (processNextApp { st with
            retriesMap := setRetries st.retriesMap st.currentApp 0,
            nextStepDecided := true }).1 ∧
        Event.doneCollecting st.currentApp st.currentPage (some st.queue.length) false ∈
          (parse opts st resp frags).2))) ∧
    ((collectRun { Options.defaults with maxPages := 2 } ["solo"]
        [.fetch (.success htmlResp [tolerantFrag])]).1.currentApp = "solo" ∧
      (collectRun { Options.defaults with maxPages := 2 } ["solo"]
        [.fetch (.success htmlResp [tolerantFrag])]).1.currentPage = 1 ∧
      (collectRun { Options.defaults with maxPages := 2 } ["solo"]
        [.fetch (.success htmlResp [tolerantFrag])]).1.phase = .fetching) ∧
    (Event.doneCollecting "solo" 1 (some 0) false ∈
      (collectRun { Options.defaults with maxPages := 2 } ["solo"]
        [.fetch (.success htmlResp [tolerantFrag]),
         .fetch (.success htmlResp [tolerantFrag])]).2 ∧
      (collectRun { Options.defaults with maxPages := 2 } ["solo"]
        [.fetch (.success htmlResp [tolerantFrag]),
         .fetch (.success htmlResp [tolerantFrag])]).1.phase = .finished) ∧
    (Event.doneCollecting "solo" 1 (some 0) false ∈
      (collectRun { Options.defaults with maxPages := 2 } ["solo"]
        [.fetch (.success htmlResp [tolerantFrag]),
         .fetch (.success htmlResp [])]).2) := by
  refine ⟨?_, by decide, by decide, by decide⟩
  intro opts st resp frags s rs hcb hresp hok
  constructor
  · intro hc
    simp [parse, hresp, hok, hcb, hc, continueProcessingApp]
  · intro hc
    refine ⟨?_, ?_⟩
    · simp [parse, hresp, hok, hcb, hc, stopProcessingApp]
    · simp [parse, hresp, hok, hcb, hc, stopProcessingApp]

/-- C5 witness: the general conjunct at a concrete advancing page (page 0,
one review, `maxPages = 2`). -/
theorem auto_advance_iff_witness :
    (({ Options.defaults with maxPages := 2 } : Options).checkBeforeContinue = false) ∧
    responseToHtml htmlResp = .value (.str "<div></div>") ∧
    (htmlToReviews "solo" 0 [tolerantFrag]).result =
      .ok [reviewOfFrag tolerantFrag ['4', '0']] ∧
    (parse { Options.defaults with maxPages := 2 }
      { queue := [], retriesMap := [("solo", 0)], currentApp := "solo",
        currentPage := 0, nextStepDecided := false, phase := .fetching }
      htmlResp [tolerantFrag]).1.currentPage = 1 := by
  have h := (auto_advance_iff.1 { Options.defaults with maxPages := 2 }
    { queue := [], retriesMap := [("solo", 0)], currentApp := "solo",
      currentPage := 0, nextStepDecided := false, phase := .fetching }
    htmlResp [tolerantFrag] "<div></div>" [reviewOfFrag tolerantFrag ['4', '0']]
    rfl rfl rfl).1 (by decide)
  exact ⟨rfl, rfl, rfl, h.2.1⟩

/-- C4: the retry counter increments by exactly 1 on every failure path
(transport error, Invalid decode, extraction error — all of which route to
`requeue`); while the incremented count is below `maxRetries` the same page
number is fetched again with no event; a successful extraction (any review
count) resets the counter to 0; and with `maxRetries = 3` the 3rd
consecutive failure — not the 2nd — emits `done collecting` with a
populated error and moves on to the next queued app. -/
theorem retry_budget :
    (∀ (opts : Options) (st : RunState),
      st.currentApp ∈ st.retriesMap.map Prod.fst →
      getRetries (requeue opts st).1.retriesMap st.currentApp =
        getRetries st.retriesMap st.currentApp + 1) ∧
    (∀ (opts : Options) (st : RunState),
      getRetries st.retriesMap st.currentApp + 1 < opts.maxRetries →
      (requeue opts st).1.currentApp = st.currentApp ∧
      (requeue opts st).1.currentPage = st.currentPage ∧
      (requeue opts st).1.phase = .fetching ∧ (requeue opts st).2 = []) ∧
    (∀ (opts : Options) (st : RunState),
      processRequest opts st .transportError = requeue opts st) ∧
    (∀ (opts : Options) (st : RunState) (resp : HttpResponse) (frags : List ReviewFragment),
      responseToHtml resp = .invalid → parse opts st resp frags = requeue opts st) ∧
    (∀ (opts : Options) (st : RunState) (resp : HttpResponse) (frags : List ReviewFragment)
        (s : String) (e : JsError),
      responseToHtml resp = .value (.str s) →
      (htmlToReviews st.currentApp st.currentPage frags).result = .error e →
      (parse opts st resp frags).1 = (requeue opts st).1) ∧
    (∀ (opts : Options) (st : RunState) (resp : HttpResponse) (frags : List ReviewFragment)
        (s : String) (rs : List Review),
      responseToHtml resp = .value (.str s) →
      (htmlToReviews st.currentApp st.currentPage frags).result = .ok rs →
      st.currentApp ∈ st.retriesMap.map Prod.fst →
      getRetries (parse opts st resp frags).1.retriesMap st.currentApp = 0) ∧
    ((collectRun .defaults ["a", "b"]
        [.fetch .transportError, .fetch .transportError]).1.currentApp = "a" ∧
      (collectRun .defaults ["a", "b"]
        [.fetch .transportError, .fetch .transportError]).1.currentPage = 0 ∧
      (collectRun .defaults ["a", "b"]
        [.fetch .transportError, .fetch .transportError]).1.phase = .fetching ∧
      (collectRun .defaults ["a", "b"]
        [.fetch .transportError, .fetch .transportError]).2 = []) ∧
    ((collectRun .defaults ["a", "b"]
        [.fetch .transportError, .fetch .transportError, .fetch .transportError]).2 =
        [Event.doneCollecting "a" 0 (some 1) true] ∧
      (collectRun .defaults ["a", "b"]
        [.fetch .transportError, .fetch .transportError, .fetch .transportError]).1.currentApp
        = "b" ∧
      (collectRun .defaults ["a", "b"]
        [.fetch .transportError, .fetch .transportError, .fetch .transportError]).1.currentPage
        = 0 ∧
      (collectRun .defaults ["a", "b"]
        [.fetch .transportError, .fetch .transportError, .fetch .transportError]).1.phase
        = .fetching) := by
  refine ⟨?_, ?_, fun opts st => rfl, ?_, ?_, ?_, by decide, by decide⟩
  · intro opts st hmem
    have hmap : (requeue opts st).1.retriesMap =
        setRetries st.retriesMap st.currentApp (getRetries st.retriesMap st.currentApp + 1) := by
      unfold requeue
      dsimp only
      split
      · rfl
      · exact processNextApp_retriesMap _
    rw [hmap]
    exact getRetries_setRetries_self _ _ _ hmem
  · intro opts st hlt
    unfold requeue
    rw [if_pos hlt]
    exact ⟨rfl, rfl, rfl, rfl⟩
  · intro opts st resp frags hresp
    simp [parse, hresp]
  · intro opts st resp frags s e hresp herr
    simp [parse, hresp, herr]
  · intro opts st resp frags s rs hresp hok hmem
    have hmap : (parse opts st resp frags).1.retriesMap =
        setRetries st.retriesMap st.currentApp 0 := by
      simp only [parse, hresp, hok]
      by_cases hcb : opts.checkBeforeContinue
      · simp [hcb]
      · simp only [hcb, Bool.false_eq_true, if_false]
        split
        · exact continueProcessingApp_retriesMap _
        · exact stopProcessingApp_retriesMap _
    rw [hmap]
    exact getRetries_setRetries_self _ _ _ hmem

/-- C4 witness: the below-limit conjunct at a concrete state with one
recorded failure and `maxRetries = 3` — the same page 4 is refetched. -/
theorem retry_budget_witness :
    (getRetries [("a", 1)] "a" + 1 < (Options.defaults).maxRetries) ∧
    (requeue .defaults
      { queue := [], retriesMap := [("a", 1)], currentApp := "a",
        currentPage := 4, nextStepDecided := false, phase := .fetching }).1.currentPage = 4 := by
  have h := retry_budget.2.1 .defaults
    { queue := [], retriesMap := [("a", 1)], currentApp := "a",
      currentPage := 4, nextStepDecided := false, phase := .fetching } (by decide)
  exact ⟨by decide, h.2.1⟩

/-- The state the run is left in after the "no more reviews" response for
app "a": nothing scheduled, "b" still queued. -/
def stalledAB : RunState :=
  { queue := ["b"], retriesMap := [("a", 0), ("b", 0)], currentApp := "a",
    currentPage := 0, nextStepDecided := false, phase := .stalled }

/-- C2 (code bug): with apps `["a", "b"]`, a first response for "a" that
decodes to the "no more reviews" sentinel emits `done collecting` for "a"
(without `appsRemaining`), but `processNextApp` is never called on this
path: no matter what further stimuli arrive, "b" never begins and
`done with apps` is never emitted — the run is permanently stalled. -/
theorem empty_page_stalls_run :
    ∀ extra : List RunInput,
      (collectRun .defaults ["a", "b"]
        (RunInput.fetch (.success lastPageResp []) :: extra)).1.phase = .stalled ∧
      (collectRun .defaults ["a", "b"]
        (RunInput.fetch (.success lastPageResp []) :: extra)).1.queue = ["b"] ∧
      (collectRun .defaults ["a", "b"]
        (RunInput.fetch (.success lastPageResp []) :: extra)).2 =
        [Event.doneCollecting "a" 0 none false] ∧
      Event.doneWithApps ∉
        (collectRun .defaults ["a", "b"]
          (RunInput.fetch (.success lastPageResp []) :: extra)).2 := by
  intro extra
  have key : collectRun .defaults ["a", "b"]
      (RunInput.fetch (.success lastPageResp []) :: extra) =
      ((run .defaults stalledAB extra).1,
        Event.doneCollecting "a" 0 none false :: (run .defaults stalledAB extra).2) := rfl
  rw [key, run_stalled _ _ _ rfl]
  exact ⟨rfl, rfl, rfl, by simp⟩

end ReviewsCollector
